import Mathlib

/-!
Verification of the SGF parser (sgf_parser repository).

The definitions below are a shallow embedding of the C++ sources:
text buffers become `List Char`, `absl::string_view::npos` becomes
`Option.none`, the in-place tree construction of `ParseToCollection`
becomes an explicit zipper (current tree plus stack of ancestors), and
the do-while state machines become fuel-indexed recursive functions
(`none` marks fuel exhaustion, which is proved unreachable).
-/

namespace SgfParser

/-- Model of `absl::ascii_isspace`: ASCII space characters. -/
def isSpaceChar (c : Char) : Bool :=
  c = ' ' || c = '\t' || c = '\n' || c = '\x0b' || c = '\x0c' || c = '\r'

/-- Strip leading and trailing ASCII whitespace
(`absl::StripLeadingAsciiWhitespace` / `StripTrailingAsciiWhitespace`). -/
def stripWs (s : List Char) : List Char :=
  ((s.dropWhile isSpaceChar).reverse.dropWhile isSpaceChar).reverse

/-- Embedding of `internal::SubstrAndStripWhitespace` (parser.cc):
`sgf.substr(start, len)` followed by stripping whitespace at both ends. -/
def substrAndStripWhitespace (sgf : List Char) (start len : Nat) : List Char :=
  stripWs ((sgf.drop start).take len)

/-- Loop body of `internal::FindFirst` (parser.cc).  `idx` is the absolute
position of the head of `l` inside the original buffer, `esc` the
`escaping` flag.  The checks mirror the C++ order exactly: an escaped
character is always skipped, a backslash always arms the escape, then the
target check, then the strict-mode (`!expect_contents`) whitespace check. -/
def findFirstAux (targets : List Char) (expectContents : Bool) :
    Bool → Nat → List Char → Option Nat
  | _, _, [] => none
  | true, idx, _ :: rest => findFirstAux targets expectContents false (idx + 1) rest
  | false, idx, c :: rest =>
    if c = '\\' then
      findFirstAux targets expectContents true (idx + 1) rest
    else if targets.contains c then
      some idx
    else if !expectContents && !(isSpaceChar c) then
      none
    else
      findFirstAux targets expectContents false (idx + 1) rest

/-- Embedding of `internal::FindFirst` (parser.cc): scan forward from
`start`; `none` models `string_view::npos`. -/
def findFirst (sgf : List Char) (start : Nat) (targets : List Char)
    (expectContents : Bool) : Option Nat :=
  findFirstAux targets expectContents false start (sgf.drop start)

/-- Embedding of `internal::Property`: identifier and ordered raw values. -/
structure Property where
  id : List Char
  values : List (List Char)
deriving Repr, DecidableEq

/-- A game node is an ordered list of properties (`internal::GameNode`). -/
abbrev GameNode := List Property

/-- The three states of `internal::ConsumeNode`. -/
inductive CNState where
  | nodeStart
  | valueStart
  | nextValue
deriving Repr, DecidableEq

/-- Result of `internal::ConsumeNode`: either the offset of the structural
delimiter that ends the node together with the parsed properties, or a
failure (the C++ `npos` return) carrying the logged error message. -/
inductive NodeOutcome where
  | done (p : Nat) (props : List Property)
  | fail (msg : String) (props : List Property)
deriving Repr, DecidableEq

/-- Append a value to the property created most recently
(`current_property->values.emplace_back`).  The head of the list is the
current property; the list is kept in reverse creation order. -/
def addValue (v : List Char) : List Property → List Property
  | [] => []
  | p :: rest => { p with values := p.values ++ [v] } :: rest

/-- Fueled body of `internal::ConsumeNode` (parser.cc).  `revProps` holds
the properties created so far, most recent first; fuel exhaustion returns
`none` and is proved unreachable for fuel `sgf.length + 1`. -/
def consumeNodeAux (sgf : List Char) : Nat → CNState → Nat → List Property → Option NodeOutcome
  | 0, _, _, _ => none
  | fuel + 1, CNState.nodeStart, cursor, revProps =>
    match findFirst sgf cursor ['['] true with
    | none => some (NodeOutcome.fail ("Reach the end of of node.") revProps.reverse)
    | some p =>
      consumeNodeAux sgf fuel CNState.valueStart (p + 1)
        (⟨substrAndStripWhitespace sgf cursor (p - cursor), []⟩ :: revProps)
  | fuel + 1, CNState.valueStart, cursor, revProps =>
    match findFirst sgf cursor [']'] true with
    | none => some (NodeOutcome.fail ("Missing the end of a property value.") revProps.reverse)
    | some p =>
      consumeNodeAux sgf fuel CNState.nextValue (p + 1)
        (addValue ((sgf.drop cursor).take (p - cursor)) revProps)
  | fuel + 1, CNState.nextValue, cursor, revProps =>
    match findFirst sgf cursor ['[', ';', '(', ')'] true with
    | none => some (NodeOutcome.fail ("Missing the end of a node.") revProps.reverse)
    | some p =>
      let gap := substrAndStripWhitespace sgf cursor (p - cursor)
      if sgf.getD p ' ' = '[' then
        consumeNodeAux sgf fuel CNState.valueStart (p + 1)
          (if gap.isEmpty then revProps else ⟨gap, []⟩ :: revProps)
      else if gap.isEmpty then
        some (NodeOutcome.done p revProps.reverse)
      else
        some (NodeOutcome.fail ("Non-empty contents after the end of a value.") revProps.reverse)

/-- Embedding of `internal::ConsumeNode` (parser.cc), with enough fuel for
the whole buffer. -/
def consumeNode (sgf : List Char) (start : Nat) : Option NodeOutcome :=
  consumeNodeAux sgf (sgf.length + 1) CNState.nodeStart start []

/-- Embedding of `internal::GameTree`: a node sequence plus child trees.
The C++ parent pointer is replaced by the ancestor stack of the parser. -/
inductive GameTree where
  | node (sequence : List GameNode) (children : List GameTree) : GameTree

/-- The node sequence of a tree. -/
def GameTree.sequence : GameTree → List GameNode
  | .node s _ => s

/-- The child trees of a tree. -/
def GameTree.children : GameTree → List GameTree
  | .node _ c => c

/-- A tree still under construction: its node sequence and the children
completed so far. -/
abbrev OpenTree := List GameNode × List GameTree

/-- Close a tree under construction into a `GameTree`. -/
def closeTree (t : OpenTree) : GameTree :=
  GameTree.node t.1 t.2

/-- The states of `internal::ParseToCollection` (the `END` state is folded
into returning a result). -/
inductive PState where
  | start
  | treeStart
  | nodeStart
  | nextTree
deriving Repr, DecidableEq

/-- Fueled loop of `internal::ParseToCollection` (parser.cc).  `cur` is the
tree `current_tree` points to, `anc` the stack of its ancestors with the
virtual root at the bottom; `current_tree == &root` corresponds to
`anc = []`.  Errors are collected as the list of messages appended by
`LOG_ERROR`, in order.  The result is `(success, collection, errors)`;
`none` marks fuel exhaustion and is proved unreachable. -/
def parseLoop (sgf : List Char) :
    Nat → PState → Nat → OpenTree → List OpenTree → List String →
    Option (Bool × List GameTree × List String)
  | 0, _, _, _, _, _ => none
  | fuel + 1, PState.start, cursor, cur, anc, errs =>
    match findFirst sgf cursor ['('] false with
    | none => some (false, [], errs ++ [("Failed in finding a tree start.")])
    | some p => parseLoop sgf fuel PState.treeStart (p + 1) ([], []) (cur :: anc) errs
  | fuel + 1, PState.treeStart, cursor, cur, anc, errs =>
    match findFirst sgf cursor [';'] false with
    | none => some (false, [], errs ++ [("Failed in finding a node start.")])
    | some p => parseLoop sgf fuel PState.nodeStart (p + 1) cur anc errs
  | fuel + 1, PState.nodeStart, cursor, cur, anc, errs =>
    match consumeNode sgf cursor with
    | none => none
    | some (NodeOutcome.fail msg _) =>
      some (false, [], errs ++ [msg, ("Error in parsing a node.")])
    | some (NodeOutcome.done p props) =>
      if sgf.getD p ' ' = ';' then
        parseLoop sgf fuel PState.nodeStart (p + 1) (cur.1 ++ [props], cur.2) anc errs
      else if sgf.getD p ' ' = ')' then
        match anc with
        | [] => some (false, [], errs ++ [("Trying to going up in the root tree.")])
        | a :: anc2 =>
          parseLoop sgf fuel PState.nextTree (p + 1)
            (a.1, a.2 ++ [closeTree (cur.1 ++ [props], cur.2)]) anc2 errs
      else
        parseLoop sgf fuel PState.treeStart (p + 1) ([], [])
          ((cur.1 ++ [props], cur.2) :: anc) errs
  | fuel + 1, PState.nextTree, cursor, cur, anc, errs =>
    match findFirst sgf cursor ['(', ')'] false with
    | none =>
      if anc.isEmpty then some (true, cur.2, errs)
      else some (false, [], errs ++ [("Parser ends with a bad state.")])
    | some p =>
      if sgf.getD p ' ' = '(' then
        parseLoop sgf fuel PState.treeStart (p + 1) ([], []) (cur :: anc) errs
      else
        match anc with
        | [] => some (false, [], errs ++ [("Trying to going up in the root tree.")])
        | a :: anc2 =>
          parseLoop sgf fuel PState.nextTree (p + 1) (a.1, a.2 ++ [closeTree cur]) anc2 errs

/-- Embedding of `internal::ParseToCollection` (parser.cc): run the state
machine from `START` at offset 0 with the virtual root as current tree. -/
def parseToCollection (sgf : List Char) : Bool × List GameTree × List String :=
  (parseLoop sgf (sgf.length + 1) PState.start 0 ([], []) [] []).getD (false, [], [])

/-- `containsSub needle hay` holds when `needle` occurs contiguously inside
`hay`; used to state the "error message containing ..." claims. -/
def containsSub (needle hay : List Char) : Bool :=
  (List.range (hay.length + 1)).any fun i => needle.isPrefixOf (hay.drop i)

/-- `onlyWsOrEscAux esc l n`: the first `n` characters of `l`, scanned with
initial escape flag `esc`, consist only of whitespace, escape backslashes
and escaped characters.  This is the exact shape of the text the strict
scanner tolerates before a delimiter. -/
def onlyWsOrEscAux : Bool → List Char → Nat → Bool
  | _, _, 0 => true
  | _, [], _ + 1 => false
  | true, _ :: l, n + 1 => onlyWsOrEscAux false l n
  | false, c :: l, n + 1 =>
    if c = '\\' then onlyWsOrEscAux true l n
    else isSpaceChar c && onlyWsOrEscAux false l n

/-- Move color (`GoMove::Color`). -/
inductive GoColor where
  | black
  | white
deriving Repr, DecidableEq

/-- Embedding of `GoMove`: color, pass flag, coordinates.  The C++
`GoCoord` is an `int16_t`; all values produced by the parser are in
`[-97, 158]`, far from overflow, so `Int` is used. -/
structure GoMove where
  player : GoColor
  pass : Bool
  move : Int × Int
deriving Repr, DecidableEq

/-- Embedding of `GameRecord` (parser.h).  `float` fields are modelled as
rationals; strings as character lists. -/
structure GameRecord where
  board_width : Int
  board_height : Int
  komi : Rat
  handicap : Int
  timelimit : Int
  black_stones : List (Int × Int)
  white_stones : List (Int × Int)
  moves : List GoMove
  result : Rat
  resigned : Bool
  black_name : List Char
  black_rank : List Char
  white_name : List Char
  white_rank : List Char
  date : List Char
  rule : List Char
deriving Repr, DecidableEq

/-- The default-constructed `GameRecord` (`GameRecord::GameRecord()`). -/
def emptyRecord : GameRecord :=
  ⟨0, 0, 0, 0, -1, [], [], [], 0, false, [], [], [], [], [], []⟩

/-- Numeric value of a digit string (most significant digit first). -/
def digitsVal (ds : List Char) : Nat :=
  ds.foldl (fun a c => a * 10 + (c.toNat - ('0').toNat)) 0

/-- Model of the external library function `absl::SimpleAtoi` for base-10
integers: an optional sign followed by at least one digit and nothing
else.  Overflow of the C++ `int` is not modelled (no input of the claims
comes near it). -/
def simpleAtoi (s : List Char) : Option Int :=
  let (sign, digits) : Int × List Char :=
    match s with
    | '-' :: t => (-1, t)
    | '+' :: t => (1, t)
    | t => (1, t)
  if digits.isEmpty then none
  else if digits.all Char.isDigit then some (sign * (digitsVal digits : Int))
  else none

/-- Model of the external library function `absl::SimpleAtof` on finite
decimal notation: optional surrounding whitespace, an optional sign, a
mantissa with at least one digit and an optional fraction, and an optional
exponent.  The value is kept exactly as a rational, assembled with a
single `mkRat` so that concrete runs reduce in the kernel. -/
def simpleAtof (s0 : List Char) : Option Rat :=
  let s := stripWs s0
  if s.isEmpty then none else
  let (sign, s1) : Int × List Char :=
    match s with
    | '-' :: t => (-1, t)
    | '+' :: t => (1, t)
    | t => (1, t)
  let ip := s1.takeWhile Char.isDigit
  let r1 := s1.dropWhile Char.isDigit
  let (fp, r2) : List Char × List Char :=
    match r1 with
    | '.' :: t => (t.takeWhile Char.isDigit, t.dropWhile Char.isDigit)
    | t => ([], t)
  if ip.isEmpty && fp.isEmpty then none
  else
    let num : Int := sign * ((digitsVal ip * 10 ^ fp.length + digitsVal fp : Nat) : Int)
    let den : Nat := 10 ^ fp.length
    match r2 with
    | [] => some (mkRat num den)
    | e :: t =>
      if e = 'e' ∨ e = 'E' then
        let (eneg, t1) : Bool × List Char :=
          match t with
          | '-' :: u => (true, u)
          | '+' :: u => (false, u)
          | u => (false, u)
        let ed := t1.takeWhile Char.isDigit
        let r3 := t1.dropWhile Char.isDigit
        if ed.isEmpty ∨ ¬r3.isEmpty then none
        else if eneg then some (mkRat num (den * 10 ^ digitsVal ed))
        else some (mkRat (num * (10 : Int) ^ digitsVal ed) den)
      else none

/-- Decode the two board coordinates of a lowercased value:
`x = value[0] - 'a'`, `y = value[1] - 'a'`. -/
def coordOf (lower : List Char) : Int × Int :=
  (((lower.getD 0 ' ').toNat : Int) - (('a').toNat : Int),
   ((lower.getD 1 ' ').toNat : Int) - (('a').toNat : Int))

/-- The `AB`/`AW` loop of `HandleProperty`: lowercase each value, require
length 2, decode coordinates in order; `none` models the fatal
"Bad coordinate." error. -/
def decodeStones : List (List Char) → Option (List (Int × Int))
  | [] => some []
  | v :: rest =>
    let lower := v.map Char.toLower
    if lower.length = 2 then
      match decodeStones rest with
      | none => none
      | some l => some (coordOf lower :: l)
    else none

/-- The `B`/`W` loop of `HandleProperty`: an empty value is a pass with
sentinel coordinates `(-1, -1)`; otherwise the value must have length 2. -/
def decodeMoves (color : GoColor) : List (List Char) → Except String (List GoMove)
  | [] => Except.ok []
  | v :: rest =>
    let lower := v.map Char.toLower
    if lower.isEmpty then
      match decodeMoves color rest with
      | Except.error msg => Except.error msg
      | Except.ok l => Except.ok (⟨color, true, (-1, -1)⟩ :: l)
    else if lower.length = 2 then
      match decodeMoves color rest with
      | Except.error msg => Except.error msg
      | Except.ok l => Except.ok (⟨color, false, coordOf lower⟩ :: l)
    else Except.error ("Bad coordinate:" ++ String.mk v)

/-- Embedding of `HandleProperty` (the repository version declaring
`ParseToRoot`, whose `RE` handling also recognizes timeout and forfeit).
The nullable `unparsed` output vector is an `Option`; mutation of the
record becomes a returned record; a `false` return with its logged message
becomes `Except.error`.  The sentinels `1.2` and `6.5` are the rationals
`6/5` and `13/2`. -/
def handleProperty (prop : Property) (record : GameRecord)
    (unparsed : Option (List (List Char × List Char))) :
    Except String (GameRecord × Option (List (List Char × List Char))) :=
  let id := prop.id.map Char.toUpper
  if id = ("SZ").toList then
    if prop.values.length ≠ 1 then Except.error ("Bad SZ property.")
    else match simpleAtoi (prop.values.getD 0 []) with
      | none => Except.error ("Bad SZ value.")
      | some size => Except.ok ({ record with board_width := size, board_height := size }, unparsed)
  else if id = ("HA").toList then
    if prop.values.length ≠ 1 then Except.error ("Bad HA property.")
    else match simpleAtoi (prop.values.getD 0 []) with
      | none => Except.error ("Bad HA value.")
      | some ha => Except.ok ({ record with handicap := ha }, unparsed)
  else if id = ("TM").toList then
    if prop.values.length ≠ 1 then Except.error ("Bad TM property.")
    else match simpleAtoi (prop.values.getD 0 []) with
      | some tm => Except.ok ({ record with timelimit := tm }, unparsed)
      | none => Except.ok ({ record with timelimit := 0 }, unparsed)
  else if id = ("KM").toList then
    if prop.values.length ≠ 1 then Except.error ("Bad Komi property.")
    else match simpleAtof (prop.values.getD 0 []) with
      | some k => Except.ok ({ record with komi := k }, unparsed)
      | none => Except.ok ({ record with komi := mkRat 13 2 }, unparsed)
  else if id = ("RU").toList then
    if prop.values.length ≠ 1 then Except.error ("Bad rule.")
    else Except.ok ({ record with rule := prop.values.getD 0 [] }, unparsed)
  else if id = ("PB").toList ∨ id = ("BT").toList then
    if prop.values.length ≠ 1 then Except.error ("Bad black name value.")
    else Except.ok ({ record with black_name := prop.values.getD 0 [] }, unparsed)
  else if id = ("PW").toList ∨ id = ("WT").toList then
    if prop.values.length ≠ 1 then Except.error ("Bad white name value.")
    else Except.ok ({ record with white_name := prop.values.getD 0 [] }, unparsed)
  else if id = ("BR").toList then
    if prop.values.length ≠ 1 then Except.error ("Bad black rank.")
    else Except.ok ({ record with black_rank := prop.values.getD 0 [] }, unparsed)
  else if id = ("WR").toList then
    if prop.values.length ≠ 1 then Except.error ("Bad white rank.")
    else Except.ok ({ record with white_rank := prop.values.getD 0 [] }, unparsed)
  else if id = ("DT").toList then
    if prop.values.length ≠ 1 then Except.error ("Bad date.")
    else Except.ok ({ record with date := prop.values.getD 0 [] }, unparsed)
  else if id = ("RE").toList then
    if prop.values.length ≠ 1 then Except.error ("Bad result (RE) property.")
    else
      let re := (prop.values.getD 0 []).map Char.toUpper
      if re.take 3 = ("B+R").toList ∨ re.take 3 = ("B+T").toList ∨ re.take 3 = ("B+F").toList then
        Except.ok ({ record with result := mkRat 6 5, resigned := true }, unparsed)
      else if re.take 3 = ("W+R").toList ∨ re.take 3 = ("W+T").toList ∨ re.take 3 = ("W+F").toList then
        Except.ok ({ record with result := mkRat (-6) 5, resigned := true }, unparsed)
      else if 3 ≤ re.length then
        match simpleAtof (re.drop 2) with
        | none => Except.error ("Bad result (RE) value: failed in parsing score.")
        | some score =>
          if re.getD 0 ' ' = 'B' then
            Except.ok ({ record with result := score }, unparsed)
          else if re.getD 0 ' ' = 'W' then
            Except.ok ({ record with result := -score }, unparsed)
          else Except.error ("Bad result (RE) value: unknown color.")
      else Except.error ("Bad result (RE) value: value too short.")
  else if id = ("AB").toList ∨ id = ("AW").toList then
    match decodeStones prop.values with
    | none => Except.error ("Bad coordinate.")
    | some stones =>
      if id = ("AB").toList then
        Except.ok ({ record with black_stones := record.black_stones ++ stones }, unparsed)
      else
        Except.ok ({ record with white_stones := record.white_stones ++ stones }, unparsed)
  else if id = ("B").toList ∨ id = ("W").toList then
    match decodeMoves (if id = ("B").toList then GoColor.black else GoColor.white) prop.values with
    | Except.error msg => Except.error msg
    | Except.ok mvs => Except.ok ({ record with moves := record.moves ++ mvs }, unparsed)
  else
    match unparsed with
    | some up => Except.ok (record, some (up ++ [(id, List.intercalate [','] prop.values)]))
    | none => Except.ok (record, none)

/-- When the scanner returns a position, that position is at or after the
start of the scan and carries a character of the target set. -/
theorem findFirstAux_bounds (targets : List Char) (e : Bool) :
    ∀ (l : List Char) (esc : Bool) (idx p : Nat),
      findFirstAux targets e esc idx l = some p →
      idx ≤ p ∧ p - idx < l.length ∧ ∃ c, l[p - idx]? = some c ∧ c ∈ targets := by
  intro l
  induction l with
  | nil =>
    intro esc idx p h
    simp [findFirstAux] at h
  | cons c rest ih =>
    intro esc idx p h
    cases esc with
    | true =>
      rw [show findFirstAux targets e true idx (c :: rest)
            = findFirstAux targets e false (idx + 1) rest from rfl] at h
      obtain ⟨h1, h2, c2, h3, h4⟩ := ih false (idx + 1) p h
      refine ⟨by omega, ?_, c2, ?_, h4⟩
      · simp only [List.length_cons]; omega
      · rw [show p - idx = (p - (idx + 1)) + 1 from by omega]
        simpa using h3
    | false =>
      by_cases hbs : c = '\\'
      · subst hbs
        rw [show findFirstAux targets e false idx ('\\' :: rest)
              = findFirstAux targets e true (idx + 1) rest from by simp [findFirstAux]] at h
        obtain ⟨h1, h2, c2, h3, h4⟩ := ih true (idx + 1) p h
        refine ⟨by omega, ?_, c2, ?_, h4⟩
        · simp only [List.length_cons]; omega
        · rw [show p - idx = (p - (idx + 1)) + 1 from by omega]
          simpa using h3
      · by_cases hct : c ∈ targets
        · have hip : idx = p := by simpa [findFirstAux, hbs, hct] using h
          subst hip
          exact ⟨le_refl _, by simp, c, by simp, hct⟩
        · by_cases hsp : (!e && !(isSpaceChar c)) = true
          · simp [findFirstAux, hbs, hct, hsp] at h
          · have h0 : findFirstAux targets e false (idx + 1) rest = some p := by
              simpa [findFirstAux, hbs, hct, hsp] using h
            obtain ⟨h1, h2, c2, h3, h4⟩ := ih false (idx + 1) p h0
            refine ⟨by omega, ?_, c2, ?_, h4⟩
            · simp only [List.length_cons]; omega
            · rw [show p - idx = (p - (idx + 1)) + 1 from by omega]
              simpa using h3

/-- Top-level form of `findFirstAux_bounds` for `findFirst`. -/
theorem findFirst_some (sgf : List Char) (start : Nat) (targets : List Char)
    (e : Bool) (p : Nat) (h : findFirst sgf start targets e = some p) :
    start ≤ p ∧ p < sgf.length ∧ ∃ c, sgf[p]? = some c ∧ c ∈ targets := by
  obtain ⟨h1, h2, c, h3, h4⟩ := findFirstAux_bounds targets e (sgf.drop start) false start p h
  rw [List.getElem?_drop, show start + (p - start) = p from by omega] at h3
  exact ⟨h1, (List.getElem?_eq_some.mp h3).1, c, h3, h4⟩

/-- In strict mode (`expect_contents = false`) everything the scanner
passes over before the returned delimiter is whitespace, an escape
backslash, or an escaped character. -/
theorem findFirstAux_strict_clean (targets : List Char) :
    ∀ (l : List Char) (esc : Bool) (idx p : Nat),
      findFirstAux targets false esc idx l = some p →
      onlyWsOrEscAux esc l (p - idx) = true := by
  intro l
  induction l with
  | nil =>
    intro esc idx p h
    simp [findFirstAux] at h
  | cons c rest ih =>
    intro esc idx p h
    cases esc with
    | true =>
      rw [show findFirstAux targets false true idx (c :: rest)
            = findFirstAux targets false false (idx + 1) rest from rfl] at h
      have h1 := (findFirstAux_bounds targets false rest false (idx + 1) p h).1
      have h2 := ih false (idx + 1) p h
      rw [show p - idx = (p - (idx + 1)) + 1 from by omega]
      simpa [onlyWsOrEscAux] using h2
    | false =>
      by_cases hbs : c = '\\'
      · subst hbs
        rw [show findFirstAux targets false false idx ('\\' :: rest)
              = findFirstAux targets false true (idx + 1) rest from by simp [findFirstAux]] at h
        have h1 := (findFirstAux_bounds targets false rest true (idx + 1) p h).1
        have h2 := ih true (idx + 1) p h
        rw [show p - idx = (p - (idx + 1)) + 1 from by omega]
        simpa [onlyWsOrEscAux] using h2
      · by_cases hct : c ∈ targets
        · have hip : idx = p := by simpa [findFirstAux, hbs, hct] using h
          subst hip
          simp [Nat.sub_self, onlyWsOrEscAux]
        · by_cases hsp : isSpaceChar c = true
          · have h0 : findFirstAux targets false false (idx + 1) rest = some p := by
              simpa [findFirstAux, hbs, hct, hsp] using h
            have h1 := (findFirstAux_bounds targets false rest false (idx + 1) p h0).1
            have h2 := ih false (idx + 1) p h0
            rw [show p - idx = (p - (idx + 1)) + 1 from by omega]
            simp [onlyWsOrEscAux, hbs, hsp, h2]
          · simp [findFirstAux, hbs, hct, hsp] at h

/-- The node consumer never exhausts fuel `sgf.length + 1`: every state
transition strictly advances the cursor, which stays within the buffer. -/
theorem consumeNodeAux_isSome (sgf : List Char) :
    ∀ (fuel : Nat) (st : CNState) (cursor : Nat) (rp : List Property),
      sgf.length - cursor < fuel →
      (consumeNodeAux sgf fuel st cursor rp).isSome = true := by
  intro fuel
  induction fuel with
  | zero =>
    intro st cursor rp h
    omega
  | succ f ih =>
    intro st cursor rp h
    cases st with
    | nodeStart =>
      cases hf : findFirst sgf cursor ['['] true with
      | none => simp [consumeNodeAux, hf]
      | some p =>
        obtain ⟨h1, h2, -⟩ := findFirst_some _ _ _ _ _ hf
        simp only [consumeNodeAux, hf]
        exact ih _ _ _ (by omega)
    | valueStart =>
      cases hf : findFirst sgf cursor [']'] true with
      | none => simp [consumeNodeAux, hf]
      | some p =>
        obtain ⟨h1, h2, -⟩ := findFirst_some _ _ _ _ _ hf
        simp only [consumeNodeAux, hf]
        exact ih _ _ _ (by omega)
    | nextValue =>
      cases hf : findFirst sgf cursor ['[', ';', '(', ')'] true with
      | none => simp [consumeNodeAux, hf]
      | some p =>
        obtain ⟨h1, h2, -⟩ := findFirst_some _ _ _ _ _ hf
        simp only [consumeNodeAux, hf]
        by_cases hbr : sgf.getD p ' ' = '['
        · rw [if_pos hbr]
          exact ih _ _ _ (by omega)
        · rw [if_neg hbr]
          by_cases hg : (substrAndStripWhitespace sgf cursor (p - cursor)).isEmpty = true
          · simp [hg]
          · simp [hg]

/-- When the node consumer reports a terminating delimiter at `p`, then
`p` is in bounds, at or after the start, and holds one of the three
structural delimiters. -/
theorem consumeNodeAux_done (sgf : List Char) :
    ∀ (fuel : Nat) (st : CNState) (cursor : Nat) (rp : List Property)
      (p : Nat) (props : List Property),
      consumeNodeAux sgf fuel st cursor rp = some (NodeOutcome.done p props) →
      cursor ≤ p ∧ p < sgf.length ∧ ∃ c, sgf[p]? = some c ∧ (c = ';' ∨ c = '(' ∨ c = ')') := by
  intro fuel
  induction fuel with
  | zero =>
    intro st cursor rp p props h
    simp [consumeNodeAux] at h
  | succ f ih =>
    intro st cursor rp p props h
    cases st with
    | nodeStart =>
      cases hf : findFirst sgf cursor ['['] true with
      | none => simp [consumeNodeAux, hf] at h
      | some p0 =>
        simp only [consumeNodeAux, hf] at h
        obtain ⟨g1, g2, -⟩ := findFirst_some _ _ _ _ _ hf
        obtain ⟨k1, k2, k3⟩ := ih _ _ _ _ _ h
        exact ⟨by omega, k2, k3⟩
    | valueStart =>
      cases hf : findFirst sgf cursor [']'] true with
      | none => simp [consumeNodeAux, hf] at h
      | some p0 =>
        simp only [consumeNodeAux, hf] at h
        obtain ⟨g1, g2, -⟩ := findFirst_some _ _ _ _ _ hf
        obtain ⟨k1, k2, k3⟩ := ih _ _ _ _ _ h
        exact ⟨by omega, k2, k3⟩
    | nextValue =>
      cases hf : findFirst sgf cursor ['[', ';', '(', ')'] true with
      | none => simp [consumeNodeAux, hf] at h
      | some p0 =>
        simp only [consumeNodeAux, hf] at h
        obtain ⟨g1, g2, c, gc, gt⟩ := findFirst_some _ _ _ _ _ hf
        by_cases hbr : sgf.getD p0 ' ' = '['
        · rw [if_pos hbr] at h
          obtain ⟨k1, k2, k3⟩ := ih _ _ _ _ _ h
          exact ⟨by omega, k2, k3⟩
        · rw [if_neg hbr] at h
          by_cases hg : (substrAndStripWhitespace sgf cursor (p0 - cursor)).isEmpty = true
          · rw [if_pos hg] at h
            have hdp : p0 = p := by
              injection (Option.some.inj h) with h2 h3
            subst hdp
            have hgd : sgf.getD p0 ' ' = c := by
              rw [List.getD_eq_getElem?_getD, gc]
              rfl
            simp only [List.mem_cons, List.not_mem_nil, or_false] at gt
            rcases gt with h1 | h1 | h1 | h1
            · exact absurd (hgd.trans h1) hbr
            · exact ⟨g1, g2, c, gc, Or.inl h1⟩
            · exact ⟨g1, g2, c, gc, Or.inr (Or.inl h1)⟩
            · exact ⟨g1, g2, c, gc, Or.inr (Or.inr h1)⟩
          · rw [if_neg hg] at h
            simp at h

/-- The tree-building loop never exhausts fuel `sgf.length + 1` when
started within the buffer: every state transition strictly advances the
cursor. -/
theorem parseLoop_isSome (sgf : List Char) :
    ∀ (fuel : Nat) (st : PState) (cursor : Nat) (cur : OpenTree)
      (anc : List OpenTree) (errs : List String),
      sgf.length - cursor < fuel →
      (parseLoop sgf fuel st cursor cur anc errs).isSome = true := by
  intro fuel
  induction fuel with
  | zero =>
    intro st cursor cur anc errs h
    omega
  | succ f ih =>
    intro st cursor cur anc errs h
    cases st with
    | start =>
      cases hf : findFirst sgf cursor ['('] false with
      | none => simp [parseLoop, hf]
      | some p =>
        obtain ⟨h1, h2, -⟩ := findFirst_some _ _ _ _ _ hf
        simp only [parseLoop, hf]
        exact ih _ _ _ _ _ (by omega)
    | treeStart =>
      cases hf : findFirst sgf cursor [';'] false with
      | none => simp [parseLoop, hf]
      | some p =>
        obtain ⟨h1, h2, -⟩ := findFirst_some _ _ _ _ _ hf
        simp only [parseLoop, hf]
        exact ih _ _ _ _ _ (by omega)
    | nodeStart =>
      have hcn := consumeNodeAux_isSome sgf (sgf.length + 1) CNState.nodeStart cursor [] (by omega)
      obtain ⟨r, hr⟩ := Option.isSome_iff_exists.mp hcn
      have hr2 : consumeNode sgf cursor = some r := hr
      cases r with
      | fail msg props => simp [parseLoop, hr2]
      | done p props =>
        obtain ⟨k1, k2, -⟩ := consumeNodeAux_done sgf _ _ _ _ _ _ hr
        simp only [parseLoop, hr2]
        by_cases hc1 : sgf.getD p ' ' = ';'
        · rw [if_pos hc1]
          exact ih _ _ _ _ _ (by omega)
        · rw [if_neg hc1]
          by_cases hc2 : sgf.getD p ' ' = ')'
          · rw [if_pos hc2]
            cases anc with
            | nil => simp
            | cons a anc2 => exact ih _ _ _ _ _ (by omega)
          · rw [if_neg hc2]
            exact ih _ _ _ _ _ (by omega)
    | nextTree =>
      cases hf : findFirst sgf cursor ['(', ')'] false with
      | none =>
        simp only [parseLoop, hf]
        by_cases ha : anc.isEmpty = true
        · simp [ha]
        · simp [ha]
      | some p =>
        obtain ⟨h1, h2, -⟩ := findFirst_some _ _ _ _ _ hf
        simp only [parseLoop, hf]
        by_cases hc1 : sgf.getD p ' ' = '('
        · rw [if_pos hc1]
          exact ih _ _ _ _ _ (by omega)
        · rw [if_neg hc1]
          cases anc with
          | nil => simp
          | cons a anc2 => exact ih _ _ _ _ _ (by omega)

/-- Claim C1: tree parsing of
`(;FF[4]SZ[19]AB[bd][be][af]AW[aa][ab]AB[cc];B[ce];W[gg];B[cf])` succeeds
with exactly one root tree, no children and 4 nodes; node 0 holds, in
source order, FF=[4], SZ=[19], AB=[bd,be,af], AW=[aa,ab], AB=[cc]:
consecutive bracket groups accumulate into one property while a re-stated
identifier opens a fresh property of the same id. -/
theorem C1_record_roundtrip :
    parseToCollection (("(;FF[4]SZ[19]AB[bd][be][af]AW[aa][ab]AB[cc];B[ce];W[gg];B[cf])").toList)
      = (true,
         [GameTree.node
            [[⟨("FF").toList, [("4").toList]⟩,
              ⟨("SZ").toList, [("19").toList]⟩,
              ⟨("AB").toList, [("bd").toList, ("be").toList, ("af").toList]⟩,
              ⟨("AW").toList, [("aa").toList, ("ab").toList]⟩,
              ⟨("AB").toList, [("cc").toList]⟩],
             [⟨("B").toList, [("ce").toList]⟩],
             [⟨("W").toList, [("gg").toList]⟩],
             [⟨("B").toList, [("cf").toList]⟩]]
            []],
         []) := by
  rfl

/-- Claim C3, counterexample: on the buffer `\x(` with target set `(` in
strict mode, the scanner returns position 2 even though the backslash and
the escaped `x` — both non-whitespace and not in the target set — precede
the returned delimiter, contradicting "only whitespace may precede the
returned delimiter". -/
theorem C3_counterexample :
    findFirst (("\\x(").toList) 0 ['('] false = some 2
    ∧ isSpaceChar '\\' = false ∧ List.contains ['('] '\\' = false
    ∧ isSpaceChar 'x' = false ∧ List.contains ['('] 'x' = false := by
  refine ⟨by rfl, by rfl, by rfl, by rfl, by rfl⟩

/-- Claim C3 (amended): in strict mode only whitespace, escape backslashes
and backslash-escaped characters may precede the returned delimiter; a
non-whitespace character that is not a backslash and not escaped and not
in the target set makes the scan return "not found" at once. -/
theorem C3_strict_scan :
    (∀ (sgf : List Char) (start : Nat) (targets : List Char) (p : Nat),
       findFirst sgf start targets false = some p →
       start ≤ p ∧ onlyWsOrEscAux false (sgf.drop start) (p - start) = true
         ∧ ∃ c, sgf[p]? = some c ∧ c ∈ targets)
    ∧ (∀ (targets : List Char) (idx : Nat) (c : Char) (l : List Char),
       isSpaceChar c = false → c ≠ '\\' → c ∉ targets →
       findFirstAux targets false false idx (c :: l) = none) := by
  constructor
  · intro sgf start targets p h
    obtain ⟨h1, h2, c, h3, h4⟩ := findFirst_some sgf start targets false p h
    exact ⟨h1, findFirstAux_strict_clean targets (sgf.drop start) false start p h, c, h3, h4⟩
  · intro targets idx c l h1 h2 h3
    simp [findFirstAux, h1, h2, h3]

/-- Witness for the amended claim C3 at concrete inputs. -/
theorem C3_strict_scan_witness :
    findFirstAux ['('] false false 0 ['x'] = none
    ∧ onlyWsOrEscAux false ((" (").toList) 1 = true := by
  refine ⟨C3_strict_scan.2 ['('] 0 'x' [] rfl (by decide) (by decide), ?_⟩
  have h := (C3_strict_scan.1 ((" (").toList) 0 ['('] 1 rfl).2.1
  simpa using h

/-- Claim C4: a backslash escapes exactly the one character after it —
that character is never returned as a delimiter and is skipped, and the
escape state resets after that single character; consequently a value
containing `\]` is not terminated at the escaped bracket and keeps the
raw backslash in the stored value. -/
theorem C4_escape :
    (∀ (targets : List Char) (e : Bool) (idx : Nat) (c : Char) (l : List Char),
       findFirstAux targets e true idx (c :: l) = findFirstAux targets e false (idx + 1) l)
    ∧ (∀ (targets : List Char) (e : Bool) (idx : Nat) (c : Char) (l : List Char),
       findFirstAux targets e false idx ('\\' :: c :: l) = findFirstAux targets e false (idx + 2) l)
    ∧ (∀ (targets : List Char) (e : Bool) (idx : Nat) (c : Char) (l : List Char) (p : Nat),
       findFirstAux targets e false idx ('\\' :: c :: l) = some p → idx + 2 ≤ p)
    ∧ consumeNode (("C[a\\]b];").toList) 0
        = some (NodeOutcome.done 7 [⟨['C'], [['a', '\\', ']', 'b']]⟩]) := by
  refine ⟨fun targets e idx c l => rfl, fun targets e idx c l => rfl, ?_, by rfl⟩
  intro targets e idx c l p h
  rw [show findFirstAux targets e false idx ('\\' :: c :: l)
        = findFirstAux targets e false (idx + 2) l from rfl] at h
  exact (findFirstAux_bounds targets e l false (idx + 2) p h).1

/-- Witness for claim C4 at a concrete input. -/
theorem C4_escape_witness :
    findFirstAux ['('] false false 0 (['\\', 'x', '(']) = some 2 ∧ 0 + 2 ≤ 2 := by
  exact ⟨by rfl, C4_escape.2.2.1 ['('] false 0 'x' ['('] 2 (by rfl)⟩

/-- Claim C5: parsing succeeds only with balanced parentheses — if the
scan finishes while the current tree is not the virtual root, parsing
fails with "Parser ends with a bad state."; a `)` met while already at
the virtual root fails with "Trying to going up in the root tree."; on
success the virtual root's children are the returned collection. -/
theorem C5_balance :
    (∀ (sgf : List Char) (fuel cursor : Nat) (cur : OpenTree) (anc : List OpenTree)
       (errs : List String),
       findFirst sgf cursor ['(', ')'] false = none → anc ≠ [] →
       parseLoop sgf (fuel + 1) PState.nextTree cursor cur anc errs
         = some (false, [], errs ++ [("Parser ends with a bad state.")]))
    ∧ (∀ (sgf : List Char) (fuel cursor : Nat) (cur : OpenTree) (errs : List String),
       findFirst sgf cursor ['(', ')'] false = none →
       parseLoop sgf (fuel + 1) PState.nextTree cursor cur [] errs = some (true, cur.2, errs))
    ∧ (∀ (sgf : List Char) (fuel cursor : Nat) (cur : OpenTree) (errs : List String) (p : Nat),
       findFirst sgf cursor ['(', ')'] false = some p → sgf.getD p ' ' = ')' →
       parseLoop sgf (fuel + 1) PState.nextTree cursor cur [] errs
         = some (false, [], errs ++ [("Trying to going up in the root tree.")]))
    ∧ (∀ (sgf : List Char) (fuel cursor : Nat) (cur : OpenTree) (errs : List String)
       (p : Nat) (props : List Property),
       consumeNode sgf cursor = some (NodeOutcome.done p props) → sgf.getD p ' ' = ')' →
       parseLoop sgf (fuel + 1) PState.nodeStart cursor cur [] errs
         = some (false, [], errs ++ [("Trying to going up in the root tree.")]))
    ∧ parseToCollection (("(;B[aa](;W[bb])").toList)
        = (false, [], [("Parser ends with a bad state.")])
    ∧ parseToCollection (("(;B[aa]))").toList)
        = (false, [], [("Trying to going up in the root tree.")]) := by
  refine ⟨?_, ?_, ?_, ?_, by rfl, by rfl⟩
  · intro sgf fuel cursor cur anc errs hf hanc
    have h2 : ¬(anc.isEmpty = true) := by
      simpa [List.isEmpty_iff] using hanc
    simp only [parseLoop, hf]
    rw [if_neg h2]
  · intro sgf fuel cursor cur errs hf
    simp only [parseLoop, hf]
    rfl
  · intro sgf fuel cursor cur errs p hf hc
    have h2 : ¬(sgf.getD p ' ' = '(') := by
      rw [hc]
      decide
    simp only [parseLoop, hf]
    rw [if_neg h2]
  · intro sgf fuel cursor cur errs p props hcn hc
    have h1 : ¬(sgf.getD p ' ' = ';') := by
      rw [hc]
      decide
    simp only [parseLoop, hcn]
    rw [if_neg h1, if_pos hc]

/-- Witness for claim C5 at concrete inputs. -/
theorem C5_balance_witness :
    parseLoop ((")").toList) 1 PState.nextTree 0 ([], []) [] []
      = some (false, [], [("Trying to going up in the root tree.")]) := by
  exact C5_balance.2.2.1 ((")").toList) 0 0 ([], []) [] 0 (by rfl) (by rfl)

/-- Claim C6: for every input, both state machines terminate with a result
within a number of transitions bounded by the input length — fuel
`length + 1` is never exhausted. -/
theorem C6_termination (sgf : List Char) :
    (parseLoop sgf (sgf.length + 1) PState.start 0 ([], []) [] []).isSome = true
    ∧ ∀ start : Nat, (consumeNode sgf start).isSome = true := by
  exact ⟨parseLoop_isSome sgf _ _ _ _ _ _ (by omega),
         fun start => consumeNodeAux_isSome sgf _ _ _ _ (by omega)⟩

/-- Claim C7: input `\n\n;` fails with a message containing "tree start";
input `(a;)` fails with a message containing "node start". -/
theorem C7_bad_start_messages :
    parseToCollection (("\n\n;").toList) = (false, [], [("Failed in finding a tree start.")])
    ∧ containsSub (("tree start").toList) (("Failed in finding a tree start.").toList) = true
    ∧ parseToCollection (("(a;)").toList) = (false, [], [("Failed in finding a node start.")])
    ∧ containsSub (("node start").toList) (("Failed in finding a node start.").toList) = true := by
  refine ⟨by rfl, by rfl, by rfl, by rfl⟩

/-- Claim C9: a successful `ConsumeNode` returns a strictly in-bounds
position holding `;`, `(` or `)`, so the tree builder's subsequent
indexing of the buffer never reads out of bounds. -/
theorem C9_consume_node_in_bounds (sgf : List Char) (start p : Nat) (props : List Property)
    (h : consumeNode sgf start = some (NodeOutcome.done p props)) :
    p < sgf.length ∧ ∃ c, sgf[p]? = some c ∧ (c = ';' ∨ c = '(' ∨ c = ')') := by
  obtain ⟨-, k2, k3⟩ := consumeNodeAux_done sgf _ _ _ _ _ _ h
  exact ⟨k2, k3⟩

/-- Witness for claim C9 at a concrete input. -/
theorem C9_consume_node_in_bounds_witness :
    5 < (("B[aa];").toList).length
    ∧ ∃ c, (("B[aa];").toList)[5]? = some c ∧ (c = ';' ∨ c = '(' ∨ c = ')') := by
  exact C9_consume_node_in_bounds (("B[aa];").toList) 0 5
    [⟨['B'], [['a', 'a']]⟩] (by rfl)

/-- Claim C10: `(;[v])` parses successfully and the node's only property
has the empty identifier — an empty property id is accepted. -/
theorem C10_empty_identifier :
    parseToCollection (("(;[v])").toList)
      = (true, [GameTree.node [[⟨[], [['v']]⟩]] []], []) := by
  rfl

/-- Unfolding of `handleProperty` at an `RE` property with a single value:
only the `RE` branch remains. -/
theorem handleRE_eq (v : List Char) (record : GameRecord)
    (up : Option (List (List Char × List Char))) :
    handleProperty ⟨("RE").toList, [v]⟩ record up =
      (let re := v.map Char.toUpper
       if re.take 3 = ("B+R").toList ∨ re.take 3 = ("B+T").toList ∨ re.take 3 = ("B+F").toList then
         Except.ok ({ record with result := mkRat 6 5, resigned := true }, up)
       else if re.take 3 = ("W+R").toList ∨ re.take 3 = ("W+T").toList ∨ re.take 3 = ("W+F").toList then
         Except.ok ({ record with result := mkRat (-6) 5, resigned := true }, up)
       else if 3 ≤ re.length then
         match simpleAtof (re.drop 2) with
         | none => Except.error ("Bad result (RE) value: failed in parsing score.")
         | some score =>
           if re.getD 0 ' ' = 'B' then Except.ok ({ record with result := score }, up)
           else if re.getD 0 ' ' = 'W' then Except.ok ({ record with result := -score }, up)
           else Except.error ("Bad result (RE) value: unknown color.")
       else Except.error ("Bad result (RE) value: value too short.")) := by
  simp only [handleProperty]
  rw [if_neg (by decide), if_neg (by decide), if_neg (by decide), if_neg (by decide),
      if_neg (by decide), if_neg (by decide), if_neg (by decide), if_neg (by decide),
      if_neg (by decide), if_neg (by decide), if_pos (by decide), if_neg (by simp)]
  rfl

/-- Claim C2: decoding of a single-valued `RE` property after
uppercasing — prefixes `B+R`/`B+T`/`B+F` give result `1.2` (as the
rational `6/5`) with `resigned = true`; `W+R`/`W+T`/`W+F` give `-1.2`
with `resigned = true`; otherwise with length at least 3 the suffix after
the first two characters is parsed as a float margin, `B` giving
`+margin` and `W` giving `-margin` with `resigned` unchanged; any other
leading character, an unparsable suffix, or a shorter value fails.  In
particular `B+3.5` gives `3.5` unresigned, `W+R` gives `-1.2` resigned,
and `X+5` fails. -/
theorem C2_re_decoding :
    (∀ (v : List Char) (record : GameRecord) (up : Option (List (List Char × List Char))),
      ((v.map Char.toUpper).take 3 = ("B+R").toList ∨
         (v.map Char.toUpper).take 3 = ("B+T").toList ∨
         (v.map Char.toUpper).take 3 = ("B+F").toList →
        handleProperty ⟨("RE").toList, [v]⟩ record up
          = Except.ok ({ record with result := mkRat 6 5, resigned := true }, up))
      ∧ ((v.map Char.toUpper).take 3 = ("W+R").toList ∨
           (v.map Char.toUpper).take 3 = ("W+T").toList ∨
           (v.map Char.toUpper).take 3 = ("W+F").toList →
          handleProperty ⟨("RE").toList, [v]⟩ record up
            = Except.ok ({ record with result := mkRat (-6) 5, resigned := true }, up))
      ∧ (¬((v.map Char.toUpper).take 3 = ("B+R").toList ∨
             (v.map Char.toUpper).take 3 = ("B+T").toList ∨
             (v.map Char.toUpper).take 3 = ("B+F").toList) →
         ¬((v.map Char.toUpper).take 3 = ("W+R").toList ∨
             (v.map Char.toUpper).take 3 = ("W+T").toList ∨
             (v.map Char.toUpper).take 3 = ("W+F").toList) →
         3 ≤ (v.map Char.toUpper).length →
          (∀ m : Rat, simpleAtof ((v.map Char.toUpper).drop 2) = some m →
            ((v.map Char.toUpper).getD 0 ' ' = 'B' →
              handleProperty ⟨("RE").toList, [v]⟩ record up
                = Except.ok ({ record with result := m }, up))
            ∧ ((v.map Char.toUpper).getD 0 ' ' = 'W' →
              handleProperty ⟨("RE").toList, [v]⟩ record up
                = Except.ok ({ record with result := -m }, up))
            ∧ ((v.map Char.toUpper).getD 0 ' ' ≠ 'B' →
               (v.map Char.toUpper).getD 0 ' ' ≠ 'W' →
              handleProperty ⟨("RE").toList, [v]⟩ record up
                = Except.error ("Bad result (RE) value: unknown color.")))
          ∧ (simpleAtof ((v.map Char.toUpper).drop 2) = none →
              handleProperty ⟨("RE").toList, [v]⟩ record up
                = Except.error ("Bad result (RE) value: failed in parsing score.")))
      ∧ (¬((v.map Char.toUpper).take 3 = ("B+R").toList ∨
             (v.map Char.toUpper).take 3 = ("B+T").toList ∨
             (v.map Char.toUpper).take 3 = ("B+F").toList) →
         ¬((v.map Char.toUpper).take 3 = ("W+R").toList ∨
             (v.map Char.toUpper).take 3 = ("W+T").toList ∨
             (v.map Char.toUpper).take 3 = ("W+F").toList) →
         (v.map Char.toUpper).length < 3 →
          handleProperty ⟨("RE").toList, [v]⟩ record up
            = Except.error ("Bad result (RE) value: value too short.")))
    ∧ handleProperty ⟨("RE").toList, [("B+3.5").toList]⟩ emptyRecord (some [])
        = Except.ok ({ emptyRecord with result := mkRat 7 2 }, some [])
    ∧ handleProperty ⟨("RE").toList, [("W+R").toList]⟩ emptyRecord (some [])
        = Except.ok ({ emptyRecord with result := mkRat (-6) 5, resigned := true }, some [])
    ∧ handleProperty ⟨("RE").toList, [("X+5").toList]⟩ emptyRecord (some [])
        = Except.error ("Bad result (RE) value: unknown color.") := by
  refine ⟨?_, by rfl, by rfl, by rfl⟩
  intro v record up
  refine ⟨?_, ?_, ?_, ?_⟩
  · intro hB
    rw [handleRE_eq]
    dsimp only
    rw [if_pos hB]
  · intro hW
    have hnB : ¬((v.map Char.toUpper).take 3 = ("B+R").toList ∨
        (v.map Char.toUpper).take 3 = ("B+T").toList ∨
        (v.map Char.toUpper).take 3 = ("B+F").toList) := by
      rcases hW with h | h | h <;> rw [h] <;> decide
    rw [handleRE_eq]
    dsimp only
    rw [if_neg hnB, if_pos hW]
  · intro hnB hnW h3
    rw [handleRE_eq]
    dsimp only
    rw [if_neg hnB, if_neg hnW, if_pos h3]
    constructor
    · intro m hm
      rw [hm]
      dsimp only
      refine ⟨?_, ?_, ?_⟩
      · intro hc
        rw [if_pos hc]
      · intro hc
        have hnc : ¬((v.map Char.toUpper).getD 0 ' ' = 'B') := by
          rw [hc]
          decide
        rw [if_neg hnc, if_pos hc]
      · intro hc1 hc2
        rw [if_neg hc1, if_neg hc2]
    · intro hm
      rw [hm]
  · intro hnB hnW h3
    rw [handleRE_eq]
    dsimp only
    rw [if_neg hnB, if_neg hnW, if_neg (by omega)]

/-- Witness for claim C2 at concrete inputs (also exercising the
lowercase-to-uppercase normalization). -/
theorem C2_re_decoding_witness :
    handleProperty ⟨("RE").toList, [("b+f").toList]⟩ emptyRecord none
      = Except.ok ({ emptyRecord with result := mkRat 6 5, resigned := true }, none) := by
  exact (C2_re_decoding.1 (("b+f").toList) emptyRecord none).1 (by decide)

/-- Claim C8: a property whose uppercased identifier is not one of the
recognized ids returns success, leaves the record unchanged, and — when
an unparsed output list is supplied — appends the pair of uppercased id
and comma-joined values to it. -/
theorem C8_unknown_property (prop : Property) (record : GameRecord)
    (up : List (List Char × List Char))
    (h : prop.id.map Char.toUpper ∉
      [("SZ").toList, ("HA").toList, ("TM").toList, ("KM").toList, ("RU").toList,
       ("PB").toList, ("BT").toList, ("PW").toList, ("WT").toList, ("BR").toList,
       ("WR").toList, ("DT").toList, ("RE").toList, ("AB").toList, ("AW").toList,
       ("B").toList, ("W").toList]) :
    handleProperty prop record (some up)
        = Except.ok (record,
            some (up ++ [(prop.id.map Char.toUpper, List.intercalate [','] prop.values)]))
      ∧ handleProperty prop record none = Except.ok (record, none) := by
  simp only [List.mem_cons, List.not_mem_nil, or_false, not_or] at h
  obtain ⟨h1, h2, h3, h4, h5, h6, h7, h8, h9, h10, h11, h12, h13, h14, h15, h16, h17⟩ := h
  constructor <;>
  · simp only [handleProperty]
    rw [if_neg h1, if_neg h2, if_neg h3, if_neg h4, if_neg h5,
        if_neg (not_or.mpr ⟨h6, h7⟩), if_neg (not_or.mpr ⟨h8, h9⟩),
        if_neg h10, if_neg h11, if_neg h12, if_neg h13,
        if_neg (not_or.mpr ⟨h14, h15⟩), if_neg (not_or.mpr ⟨h16, h17⟩)]

/-- Witness for claim C8 at a concrete unknown property. -/
theorem C8_unknown_property_witness :
    handleProperty ⟨("FF").toList, [("4").toList]⟩ emptyRecord (some [])
        = Except.ok (emptyRecord, some [(("FF").toList, ("4").toList)])
    ∧ handleProperty ⟨("FF").toList, [("4").toList]⟩ emptyRecord none
        = Except.ok (emptyRecord, none) := by
  have h := C8_unknown_property ⟨("FF").toList, [("4").toList]⟩ emptyRecord [] (by decide)
  exact ⟨h.1, h.2⟩

end SgfParser
